import Mathlib

/-!
# Verification of the tech-stack-analyzer dependency core

A shallow embedding, in Lean 4, of the version-system and lockfile-parsing
core of the `tech-stack-analyzer` repository, together with theorems checking
the natural-language specification against the code.

Go strings are modelled as `List Char` (`Str`); the Go standard-library
string helpers used by the source (`strings.Split`, `strings.Index`,
`strings.TrimSpace`, `strconv.Atoi`, ...) are embedded as executable Lean
functions.  Byte-oriented case folding (`strings.ToLower`) is embedded as
ASCII case folding, which agrees with Go on all inputs considered here.
Regular expressions appearing in the source are embedded as deterministic
matchers implementing the (anchored, leftmost, greedy) semantics of the
concrete patterns.

JSON/YAML decoding is outside the embedded core: lockfile parsers take the
already-decoded structures (`PackageLockJSON`, ...) as input, exactly as the
Go code does after `json.Unmarshal`.
-/

namespace TSA

/-- Go strings, modelled as lists of characters. -/
abbrev Str := List Char

/-- Coerce a Lean string literal to the `Str` model. -/
def str (s : String) : Str := s.data

/-- `unicode.IsSpace` restricted to the ASCII range (space, \t, \n, \v, \f, \r),
which is how Go classifies whitespace on the ASCII inputs considered here. -/
def goIsSpace (c : Char) : Bool := c == ' ' || (9 ≤ c.toNat && c.toNat ≤ 13)

/-- `strings.TrimSpace`: drop leading and trailing whitespace. -/
def goTrimSpace (s : Str) : Str :=
  ((s.dropWhile goIsSpace).reverse.dropWhile goIsSpace).reverse

/-- Does `pre` occur at the start of `s`? (`strings.HasPrefix`). -/
def goStarts : Str → Str → Bool
  | _, [] => true
  | [], _ :: _ => false
  | c :: cs, p :: ps => c == p && goStarts cs ps

/-- `strings.TrimPrefix`: remove one leading occurrence of `pre`, if present. -/
def goTrimPre (s pre : Str) : Str :=
  if goStarts s pre then s.drop pre.length else s

/-- `strings.IndexByte` on ASCII input: index of the first occurrence of a
character, or `none` for Go's `-1`. -/
def goIdxChar : Str → Char → Option Nat
  | [], _ => none
  | c :: cs, x => if c == x then some 0 else (goIdxChar cs x).map (· + 1)

/-- `strings.LastIndexByte`: index of the last occurrence, or `none` for `-1`. -/
def goLastIdxChar (s : Str) (x : Char) : Option Nat :=
  match goIdxChar s.reverse x with
  | none => none
  | some j => some (s.length - 1 - j)

/-- `strings.Index`: index of the first occurrence of substring `pat`,
or `none` for Go's `-1`. -/
def goIdx : Str → Str → Option Nat
  | [], pat => if goStarts [] pat then some 0 else none
  | c :: cs, pat =>
    if goStarts (c :: cs) pat then some 0 else (goIdx cs pat).map (· + 1)

/-- `strings.Contains`. -/
def goContains (s pat : Str) : Bool := (goIdx s pat).isSome

/-- Auxiliary loop for `goSplit`: `cur` is the (reversed) piece being built,
`skip` the number of separator characters still to be consumed after a hit. -/
def goSplitGo (sep : Str) : Nat → Str → Str → List Str
  | _, cur, [] => [cur.reverse]
  | k + 1, cur, _ :: rest => goSplitGo sep k cur rest
  | 0, cur, c :: rest =>
    if goStarts (c :: rest) sep then
      cur.reverse :: goSplitGo sep (sep.length - 1) [] rest
    else
      goSplitGo sep 0 (c :: cur) rest

/-- `strings.Split` around non-overlapping instances of a non-empty `sep`
(the source never calls it with an empty separator). -/
def goSplit (s sep : Str) : List Str := goSplitGo sep 0 [] s

/-- `strings.Count`: number of non-overlapping instances of non-empty `sub`. -/
def goCount (s sub : Str) : Nat := (goSplit s sub).length - 1

/-- `strings.Join`. -/
def goJoin (xs : List Str) (sep : Str) : Str := List.intercalate sep xs

/-- Loop of `goFields`: `cur` is the (reversed) field being built. -/
def goFieldsGo (p : Char → Bool) : Str → Str → List Str
  | cur, [] => if cur = [] then [] else [cur.reverse]
  | cur, c :: rest =>
    if p c then (if cur = [] then [] else [cur.reverse]) ++ goFieldsGo p [] rest
    else goFieldsGo p (c :: cur) rest

/-- `strings.FieldsFunc` (also `strings.Fields` with `goIsSpace`):
maximal runs of characters rejected by `p`; never yields empty fields. -/
def goFields (p : Char → Bool) (s : Str) : List Str := goFieldsGo p [] s

/-- `strings.TrimRight` with a one-character cut set. -/
def goTrimRightChar (s : Str) (x : Char) : Str :=
  (s.reverse.dropWhile (fun c => c == x)).reverse

/-- ASCII lower-casing of one character. -/
def lowerChar (c : Char) : Char :=
  if 'A' ≤ c ∧ c ≤ 'Z' then Char.ofNat (c.toNat + 32) else c

/-- `strings.ToLower`, ASCII case folding. -/
def goToLower (s : Str) : Str := s.map lowerChar

/-- Decimal digit character for `n < 10`. -/
def digitChar (n : Nat) : Char := Char.ofNat (48 + n)

/-- Fuel-indexed decimal rendering (the fuel `n + 1` always suffices). -/
def natToStrGo : Nat → Nat → Str
  | 0, _ => []
  | fuel + 1, n =>
    if n < 10 then [digitChar n] else natToStrGo fuel (n / 10) ++ [digitChar (n % 10)]

/-- Decimal rendering of a natural number. -/
def natToStr (n : Nat) : Str := natToStrGo (n + 1) n

/-- `strconv.Itoa`. -/
def intToStr (i : Int) : Str :=
  if i < 0 then '-' :: natToStr i.natAbs else natToStr i.natAbs

/-- Is `c` a decimal digit? (source helper `isDigit`). -/
def isDigit (c : Char) : Bool := '0' ≤ c && c ≤ '9'

/-- Value of an all-digits, non-empty string. -/
def digitsVal (s : Str) : Option Nat :=
  if s ≠ [] ∧ s.all isDigit then
    some (s.foldl (fun acc c => acc * 10 + (c.toNat - 48)) 0)
  else none

/-- `strconv.Atoi`: optional sign followed by at least one digit, subject to
the 64-bit range — a value outside `int64` makes `Atoi` return `ErrRange`,
and every call site in the source only uses the value when `err == nil`, so
out-of-range parses are `none` here. -/
def goAtoi : Str → Option Int
  | [] => none
  | '+' :: rest => (digitsVal rest).bind (fun n =>
      if n ≤ 9223372036854775807 then some (Int.ofNat n) else none)
  | '-' :: rest => (digitsVal rest).bind (fun n =>
      if n ≤ 9223372036854775808 then some (-(n : Int)) else none)
  | s => (digitsVal s).bind (fun n =>
      if n ≤ 9223372036854775807 then some (Int.ofNat n) else none)

/-- Go integer three-way comparison used throughout the source (`compareInt`). -/
def compareInt (a b : Int) : Int :=
  if a < b then -1 else if a > b then 1 else 0

/-- Go byte-wise string comparison (`strings.Compare`, and `<`/`>` on strings). -/
def goStrCmp : Str → Str → Int
  | [], [] => 0
  | [], _ :: _ => -1
  | _ :: _, [] => 1
  | a :: as_, b :: bs => if a < b then -1 else if b < a then 1 else goStrCmp as_ bs

/-- `isAllDigits` from the source: only digits, non-empty. -/
def isAllDigits (s : Str) : Bool := s.all isDigit && s.length > 0

/-- Typed parse error (`semver.ParseError`): system, offending string, reason. -/
structure ParseErr where
  system : Str
  version : Str
  reason : Str
deriving DecidableEq

/-- `parseError` constructor from the source. -/
def parseErr (system version reason : Str) : ParseErr :=
  ⟨system, version, reason⟩

instance {ε α : Type} [DecidableEq ε] [DecidableEq α] : DecidableEq (Except ε α) := by
  intro a b
  cases a <;> cases b
  case error.error e1 e2 =>
    exact match decEq e1 e2 with
      | isTrue h => isTrue (by rw [h])
      | isFalse h => isFalse (by intro hc; cases hc; exact h rfl)
  case ok.ok v1 v2 =>
    exact match decEq v1 v2 with
      | isTrue h => isTrue (by rw [h])
      | isFalse h => isFalse (by intro hc; cases hc; exact h rfl)
  case error.ok e v => exact isFalse (by intro hc; cases hc)
  case ok.error v e => exact isFalse (by intro hc; cases hc)

/-! ## NPM version system (`internal/scanner/semver/npm.go`) -/

/-- `NPMVersion`: `[v]major.minor.patch[-prerelease][+build]`. -/
structure NPMVersion where
  original : Str
  major : Int
  minor : Int
  patch : Int
  prerelease : List Str
  build : List Str
deriving DecidableEq

/-- `parseNPMVersion` from `npm.go`: strip one leading `v`/`V`/`=`, split off
build metadata at the first `+`, then prerelease at the first `-`, then parse
1–3 dot-separated numeric components (missing minor/patch default to 0). -/
def parseNPMVersion (version : Str) : Except ParseErr NPMVersion :=
  if version = [] then
    .error (parseErr (str "npm") version (str "empty version string"))
  else
    let s0 := goTrimSpace version
    let s1 := goTrimPre s0 (str "v")
    let s2 := goTrimPre s1 (str "V")
    let s3 := goTrimPre s2 (str "=")
    let bs :=
      match goIdxChar s3 '+' with
      | some idx =>
        let buildStr := s3.drop (idx + 1)
        ((if buildStr ≠ [] then goSplit buildStr (str ".") else []), s3.take idx)
      | none => ([], s3)
    let build := bs.1
    let ps :=
      match goIdxChar bs.2 '-' with
      | some idx =>
        let preStr := bs.2.drop (idx + 1)
        ((if preStr ≠ [] then goSplit preStr (str ".") else []), bs.2.take idx)
      | none => ([], bs.2)
    let prerelease := ps.1
    let parts := goSplit ps.2 (str ".")
    match parts with
    | [p0] =>
      match goAtoi p0 with
      | none => .error (parseErr (str "npm") version (str "invalid major version: " ++ p0))
      | some major => .ok ⟨version, major, 0, 0, prerelease, build⟩
    | [p0, p1] =>
      match goAtoi p0 with
      | none => .error (parseErr (str "npm") version (str "invalid major version: " ++ p0))
      | some major =>
        match goAtoi p1 with
        | none => .error (parseErr (str "npm") version (str "invalid minor version: " ++ p1))
        | some minor => .ok ⟨version, major, minor, 0, prerelease, build⟩
    | [p0, p1, p2] =>
      match goAtoi p0 with
      | none => .error (parseErr (str "npm") version (str "invalid major version: " ++ p0))
      | some major =>
        match goAtoi p1 with
        | none => .error (parseErr (str "npm") version (str "invalid minor version: " ++ p1))
        | some minor =>
          match goAtoi p2 with
          | none => .error (parseErr (str "npm") version (str "invalid patch version: " ++ p2))
          | some patch => .ok ⟨version, major, minor, patch, prerelease, build⟩
    | _ => .error (parseErr (str "npm") version (str "invalid version format"))

/-- `NPMVersion.Canon`: always the full `major.minor.patch[-pre][+build]`. -/
def NPMVersion.Canon (v : NPMVersion) (_includeEpoch : Bool) : Str :=
  intToStr v.major ++ ('.' :: intToStr v.minor) ++ ('.' :: intToStr v.patch)
    ++ (if v.prerelease ≠ [] then '-' :: goJoin v.prerelease (str ".") else [])
    ++ (if v.build ≠ [] then '+' :: goJoin v.build (str ".") else [])

/-- `comparePrereleaseIdentifier`: numeric identifiers compare numerically and
rank below alphanumeric ones; two alphanumeric identifiers compare lexically. -/
def comparePrereleaseIdentifier (vPart oPart : Str) : Int :=
  match goAtoi vPart, goAtoi oPart with
  | some vNum, some oNum => compareInt vNum oNum
  | some _, none => -1
  | none, some _ => 1
  | none, none => goStrCmp vPart oPart

/-- Pairwise identifier walk of `comparePrereleaseIdentifiers`: first non-zero
comparison wins; if all shared identifiers agree, the longer list is greater. -/
def cpiList : List Str → List Str → Int
  | [], [] => 0
  | [], _ :: os => compareInt 0 (Int.ofNat (os.length + 1))
  | _ :: vs, [] => compareInt (Int.ofNat (vs.length + 1)) 0
  | v :: vs, o :: os =>
    let c := comparePrereleaseIdentifier v o
    if c ≠ 0 then c else cpiList vs os

/-- `comparePrerelease`: no-prerelease beats has-prerelease; otherwise the
identifier walk. -/
def npmComparePrerelease (v o : NPMVersion) : Int :=
  if v.prerelease = [] ∧ o.prerelease ≠ [] then 1
  else if v.prerelease ≠ [] ∧ o.prerelease = [] then -1
  else if v.prerelease = [] ∧ o.prerelease = [] then 0
  else cpiList v.prerelease o.prerelease

/-- `compareCoreVersion`: major, then minor, then patch. -/
def npmCompareCore (v o : NPMVersion) : Int :=
  if compareInt v.major o.major ≠ 0 then compareInt v.major o.major
  else if compareInt v.minor o.minor ≠ 0 then compareInt v.minor o.minor
  else compareInt v.patch o.patch

/-- `NPMVersion.Compare` (semver 2.0.0 precedence): the numeric triple first,
then the prerelease rules.  Build metadata is not consulted. -/
def NPMVersion.Compare (v o : NPMVersion) : Int :=
  if npmCompareCore v o ≠ 0 then npmCompareCore v o
  else npmComparePrerelease v o

/-! ## PyPI version system (`internal/scanner/semver/pypi.go`) -/

/-- `PyPIVersion` (PEP 440): epoch, release numbers, optional pre/post/dev
segments and a verbatim local segment.  `pre` is `(phase, number)`. -/
structure PyPIVersion where
  original : Str
  epoch : Int
  release : List Int
  pre : Option (Str × Int)
  post : Option Int
  dev : Option Int
  localSeg : Str
deriving DecidableEq

/-- `findEarliestPreReleasePhase` loop: earliest occurrence among the phase
tokens `rc, c, beta, b, alpha, a`, in that search order (strictly earlier
occurrences replace the current best). -/
def findPrePhase (s : Str) : Option (Nat × Str) :=
  [str "rc", str "c", str "beta", str "b", str "alpha", str "a"].foldl
    (fun acc phase =>
      match goIdx s phase with
      | none => acc
      | some idx =>
        match acc with
        | none => some (idx, phase)
        | some best => if idx < best.1 then some (idx, phase) else acc)
    none

/-- `normalizePreReleasePhase`: `alpha→a`, `beta→b`, `c→rc`. -/
def normalizePrePhase (phase : Str) : Str :=
  if phase = str "alpha" ∨ phase = str "a" then str "a"
  else if phase = str "beta" ∨ phase = str "b" then str "b"
  else if phase = str "c" ∨ phase = str "rc" then str "rc"
  else phase

/-- `parsePyPIVersion` from `pypi.go`: lower-case and trim, then parse in
order epoch (`N!`), local (`+...`), dev (`.devN`/`devN`), post
(`.postN`/`postN`/trailing `-N`), pre-release (earliest phase token),
and finally the dot/underscore/dash-separated release numbers. -/
def parsePyPIVersion (version : Str) : Except ParseErr PyPIVersion :=
  if version = [] then
    .error (parseErr (str "PyPI") version (str "empty version string"))
  else
    let s := goToLower (goTrimSpace version)
    -- epoch: digits before a '!' at index > 0
    let epochStep : Except ParseErr (Int × Str) :=
      match goIdxChar s '!' with
      | some idx =>
        if idx > 0 then
          match goAtoi (s.take idx) with
          | none => .error (parseErr (str "PyPI") version (str "invalid epoch: " ++ s.take idx))
          | some e => .ok (e, s.drop (idx + 1))
        else .ok (0, s)
      | none => .ok (0, s)
    match epochStep with
    | .error e => .error e
    | .ok (epoch, s) =>
      -- local: verbatim remainder after the first '+'
      let ls :=
        match goIdxChar s '+' with
        | some idx => (s.drop (idx + 1), s.take idx)
        | none => ([], s)
      let localSeg := ls.1
      -- dev release: ".dev" first, then bare "dev"; empty number means 0
      let devStep : Except ParseErr (Option Int × Str) :=
        match goIdx ls.2 (str ".dev") with
        | some idx =>
          let devStr := ls.2.drop (idx + 4)
          if devStr ≠ [] then
            match goAtoi devStr with
            | none => .error (parseErr (str "PyPI") version (str "invalid dev number: " ++ devStr))
            | some d => .ok (some d, ls.2.take idx)
          else .ok (some 0, ls.2.take idx)
        | none =>
          match goIdx ls.2 (str "dev") with
          | some idx =>
            let devStr := ls.2.drop (idx + 3)
            if devStr ≠ [] then
              match goAtoi devStr with
              | none => .error (parseErr (str "PyPI") version (str "invalid dev number: " ++ devStr))
              | some d => .ok (some d, ls.2.take idx)
            else .ok (some 0, ls.2.take idx)
          | none => .ok (none, ls.2)
      match devStep with
      | .error e => .error e
      | .ok (dev, s) =>
        -- post release: ".post", bare "post", or a trailing "-<digits>"
        let postStep : Except ParseErr (Option Int × Str) :=
          match goIdx s (str ".post") with
          | some idx =>
            let postStr := s.drop (idx + 5)
            if postStr ≠ [] then
              match goAtoi postStr with
              | none => .error (parseErr (str "PyPI") version (str "invalid post number: " ++ postStr))
              | some p => .ok (some p, s.take idx)
            else .ok (some 0, s.take idx)
          | none =>
            match goIdx s (str "post") with
            | some idx =>
              let postStr := s.drop (idx + 4)
              if postStr ≠ [] then
                match goAtoi postStr with
                | none => .error (parseErr (str "PyPI") version (str "invalid post number: " ++ postStr))
                | some p => .ok (some p, s.take idx)
              else .ok (some 0, s.take idx)
            | none =>
              match goLastIdxChar s '-' with
              | some idx =>
                let postStr := s.drop (idx + 1)
                if postStr ≠ [] ∧ isAllDigits postStr then
                  match goAtoi postStr with
                  | some p => .ok (some p, s.take idx)
                  | none => .ok (none, s)
                else .ok (none, s)
              | none => .ok (none, s)
        match postStep with
        | .error e => .error e
        | .ok (post, s) =>
          -- pre-release: earliest among rc, c, beta, b, alpha, a
          let preStep : Except ParseErr (Option (Str × Int) × Str) :=
            match findPrePhase s with
            | some pp =>
              let preNumStr := s.drop (pp.1 + pp.2.length)
              let s' := s.take pp.1
              let phase := normalizePrePhase pp.2
              if preNumStr ≠ [] then
                match goAtoi preNumStr with
                | none =>
                  .error (parseErr (str "PyPI") version
                    (str "invalid pre-release number: " ++ preNumStr))
                | some n => .ok (some (phase, n), s')
              else .ok (some (phase, 0), s')
            | none => .ok (none, s)
          match preStep with
          | .error e => .error e
          | .ok (pre, s) =>
            -- release numbers: split on '.', '_', '-'
            let s := goTrimRightChar s '.'
            if s = [] then
              .error (parseErr (str "PyPI") version (str "no release numbers found"))
            else
              let parts := goFields (fun r => r == '.' || r == '_' || r == '-') s
              let relStep : Except ParseErr (List Int) :=
                parts.foldl
                  (fun acc part =>
                    match acc with
                    | .error e => .error e
                    | .ok nums =>
                      match goAtoi part with
                      | none =>
                        .error (parseErr (str "PyPI") version
                          (str "invalid release number: " ++ part))
                      | some n => .ok (nums ++ [n]))
                  (.ok [])
              match relStep with
              | .error e => .error e
              | .ok release =>
                if release = [] then
                  .error (parseErr (str "PyPI") version (str "no valid release numbers"))
                else .ok ⟨version, epoch, release, pre, post, dev, localSeg⟩

/-- `PyPIVersion.Canon`: `[epoch!]release[phaseN][.postN][.devN][+local]`. -/
def PyPIVersion.Canon (v : PyPIVersion) (includeEpoch : Bool) : Str :=
  (if includeEpoch ∧ v.epoch > 0 then intToStr v.epoch ++ ['!'] else [])
    ++ goJoin (v.release.map intToStr) (str ".")
    ++ (match v.pre with
        | some pp => pp.1 ++ intToStr pp.2
        | none => [])
    ++ (match v.post with
        | some n => str ".post" ++ intToStr n
        | none => [])
    ++ (match v.dev with
        | some n => str ".dev" ++ intToStr n
        | none => [])
    ++ (if v.localSeg ≠ [] then '+' :: v.localSeg else [])

/-- Element-wise comparison of release numbers; on a tie of all shared
elements the longer list is greater (the source's loop plus length check). -/
def cmpIntList : List Int → List Int → Int
  | [], [] => 0
  | [], _ :: _ => -1
  | _ :: _, [] => 1
  | a :: as_, b :: bs =>
    if a ≠ b then (if a < b then -1 else 1) else cmpIntList as_ bs

/-- Phase ranking from the source's `phaseOrder` map (`a<b<rc`; absent keys
read as Go's zero value 0). -/
def phaseOrderVal (phase : Str) : Int :=
  if phase = str "a" then 1
  else if phase = str "b" then 2
  else if phase = str "rc" then 3
  else 0

/-- `PyPIVersion.Compare`: epoch, release, pre (no-pre > has-pre, then phase,
then number), post (no-post < has-post), dev (no-dev > has-dev); the local
segment never participates. -/
def PyPIVersion.Compare (v o : PyPIVersion) : Int :=
  if v.epoch ≠ o.epoch then (if v.epoch < o.epoch then -1 else 1)
  else if cmpIntList v.release o.release ≠ 0 then cmpIntList v.release o.release
  else
    let preCmp : Int :=
      match v.pre, o.pre with
      | none, some _ => 1
      | some _, none => -1
      | some a, some b =>
        if phaseOrderVal a.1 ≠ phaseOrderVal b.1 then
          (if phaseOrderVal a.1 < phaseOrderVal b.1 then -1 else 1)
        else if a.2 ≠ b.2 then (if a.2 < b.2 then -1 else 1)
        else 0
      | none, none => 0
    if preCmp ≠ 0 then preCmp
    else
      let postCmp : Int :=
        match v.post, o.post with
        | none, some _ => -1
        | some _, none => 1
        | some a, some b => if a ≠ b then (if a < b then -1 else 1) else 0
        | none, none => 0
      if postCmp ≠ 0 then postCmp
      else
        match v.dev, o.dev with
        | none, some _ => 1
        | some _, none => -1
        | some a, some b => if a ≠ b then (if a < b then -1 else 1) else 0
        | none, none => 0

/-! ## Maven version system (`internal/scanner/semver/maven.go`) -/

/-- Does `s` match `^\d+(\.\d+)*$` (the numeric base of the Maven regexes)? -/
def wellFormedNumDots (s : Str) : Bool :=
  s ≠ [] && (goSplit s (str ".")).all (fun p => p ≠ [] && p.all isDigit)

/-- Matcher for `mavenRangeRegex` = `^[\[\(]([^,\]]*),([^\]\)]*)[\]\)]$`:
an opening bracket, a `,`/`]`-free lower bound up to the first comma, a
`]`/`)`-free upper bound, and a closing bracket as the final character. -/
def mavenRangeMatch (s : Str) : Option (Str × Str) :=
  match s with
  | [] => none
  | c :: rest =>
    if (c == '[' || c == '(') && rest ≠ [] then
      let lastC := rest.getLastD ' '
      if lastC == ']' || lastC == ')' then
        let interior := rest.dropLast
        match goIdxChar interior ',' with
        | none => none
        | some i =>
          let g1 := interior.take i
          let g2 := interior.drop (i + 1)
          if g1.all (fun x => x ≠ ']') && g2.all (fun x => x ≠ ']' && x ≠ ')') then
            some (g1, g2)
          else none
      else none
    else none

/-- `isMavenVersionRange`. -/
def isMavenVersionRange (s : Str) : Bool := (mavenRangeMatch s).isSome

/-- Is `t` the timestamp shape `\d{8}\.\d{6}`? -/
def timestampOk (t : Str) : Bool :=
  t.length == 15 && (t.take 8).all isDigit && goStarts (t.drop 8) (str ".")
    && (t.drop 9).all isDigit

/-- Matcher for `mavenBuildRegex` =
`^(\d+(?:\.\d+)*)(?:[-.]?(\d{8}\.\d{6})-(\d+))?$`.  A match without the
optional group is a plain numeric-dots version (it contains no `-`); with the
group, the literal `-` before the build number is necessarily the last `-`,
the timestamp is the 15 characters before it, the optional separator is a
single `-` or `.`, and the rest is the numeric base. -/
def mavenBuildMatch (s : Str) : Option (Str × Str × Str) :=
  match goIdxChar s '-' with
  | none => if wellFormedNumDots s then some (s, [], []) else none
  | some _ =>
    match goLastIdxChar s '-' with
    | none => none
    | some k =>
      let n := s.drop (k + 1)
      let before := s.take k
      if n ≠ [] ∧ n.all isDigit ∧ before.length ≥ 16 then
        let t := before.drop (before.length - 15)
        let b1 := before.take (before.length - 15)
        if timestampOk t then
          match b1.getLast? with
          | none => none
          | some c =>
            if c == '-' || c == '.' then
              let base := b1.dropLast
              if wellFormedNumDots base then some (base, t, n) else none
            else if wellFormedNumDots b1 then some (b1, t, n)
            else none
        else none
      else none

/-- The qualifier vocabulary `RELEASE|FINAL|SNAPSHOT|GA|BUILD|SP|RC|M\d+|PRE`. -/
def vocabOk (w : Str) : Bool :=
  w == str "RELEASE" || w == str "FINAL" || w == str "SNAPSHOT" || w == str "GA" ||
    w == str "BUILD" || w == str "SP" || w == str "RC" || w == str "PRE" ||
    (goStarts w (str "M") && (w.drop 1) ≠ [] && (w.drop 1).all isDigit)

/-- Matcher for `mavenQualifierRegex` =
`^(\d+(?:\.\d+)*)(?:[-.]?(RELEASE|FINAL|SNAPSHOT|GA|BUILD|SP|RC|M\d+|PRE))?$`:
the base is the maximal digits-and-dots prefix (minus a trailing `.` used as
the separator), the qualifier the remaining vocabulary word. -/
def mavenQualifierMatch (s : Str) : Option (Str × Str) :=
  let p := s.takeWhile (fun c => isDigit c || c == '.')
  let w := s.drop p.length
  match w with
  | [] => if wellFormedNumDots s then some (s, []) else none
  | '-' :: w1 => if vocabOk w1 && wellFormedNumDots p then some (p, w1) else none
  | _ =>
    if p.getLastD ' ' == '.' then
      if vocabOk w && wellFormedNumDots p.dropLast then some (p.dropLast, w) else none
    else if vocabOk w && wellFormedNumDots p then some (p, w)
    else none

/-- `isSimpleNumericVersion`: every dot-separated part parses with `Atoi`. -/
def isSimpleNumericVersion (version : Str) : Bool :=
  (goSplit version (str ".")).all (fun p => (goAtoi p).isSome)
    && (goSplit version (str ".")).length > 0

/-- `canonicalizeMavenVersion`: build-timestamp collapse first, then the
qualifier vocabulary (`RELEASE|FINAL|GA` stripped, `SNAPSHOT`→`-snapshot`,
`BUILD`→`-build`, others lower-cased and `-`-joined), else pass through. -/
def canonicalizeMavenVersion (version : Str) : Str :=
  match mavenBuildMatch version with
  | some m =>
    let base := m.1
    let timestamp := m.2.1
    let buildNum := m.2.2
    if timestamp ≠ [] ∧ buildNum ≠ [] then base ++ str "-build." ++ buildNum else base
  | none =>
    match mavenQualifierMatch version with
    | some m =>
      let base := m.1
      let qualifier := m.2
      if qualifier = str "RELEASE" ∨ qualifier = str "FINAL" ∨ qualifier = str "GA" then base
      else if qualifier = str "SNAPSHOT" then base ++ str "-snapshot"
      else if qualifier = str "BUILD" then base ++ str "-build"
      else if qualifier = [] then base
      else base ++ ('-' :: goToLower qualifier)
    | none =>
      -- both remaining source branches return the input unchanged
      version

/-- `canonicalizeMavenRange`: canonicalize each non-empty bound independently,
then render `lower-upper`, `>=lower`, `<=upper`, or `*`. -/
def canonicalizeMavenRange (rangeStr : Str) : Str :=
  match mavenRangeMatch rangeStr with
  | none => rangeStr
  | some m =>
    let lower0 := goTrimSpace m.1
    let upper0 := goTrimSpace m.2
    let lower := if lower0 ≠ [] then canonicalizeMavenVersion lower0 else lower0
    let upper := if upper0 ≠ [] then canonicalizeMavenVersion upper0 else upper0
    if lower = [] ∧ upper = [] then str "*"
    else if lower = [] then str "<=" ++ upper
    else if upper = [] then str ">=" ++ lower
    else lower ++ ('-' :: upper)

/-- `MavenVersion`: the original string, its canonical form, and whether the
input was classified as a range. -/
structure MavenVersion where
  original : Str
  version : Str
  isRange : Bool
deriving DecidableEq

/-- `parseMavenVersion`: classify as range or plain version, canonicalizing. -/
def parseMavenVersion (version : Str) : Except ParseErr MavenVersion :=
  if version = [] then
    .error (parseErr (str "Maven") version (str "empty version string"))
  else if isMavenVersionRange version then
    .ok ⟨version, canonicalizeMavenRange version, true⟩
  else
    .ok ⟨version, canonicalizeMavenVersion version, false⟩

/-- `MavenVersion.Canon` ignores `includeEpoch` and returns the stored form. -/
def MavenVersion.Canon (v : MavenVersion) (_includeEpoch : Bool) : Str := v.version

/-- `MavenVersion.Compare`: plain string comparison of the canonical forms. -/
def MavenVersion.Compare (v o : MavenVersion) : Int := goStrCmp v.version o.version

/-! ## Version-system dispatch and `Normalize` (`semver.go`) -/

/-- A parsed `Version` value tagged by its system. -/
inductive SysVersion where
  | npm (v : NPMVersion)
  | pypi (v : PyPIVersion)
  | maven (v : MavenVersion)
deriving DecidableEq

/-- Interface dispatch of `Version.Canon`. -/
def SysVersion.Canon : SysVersion → Bool → Str
  | .npm v, b => v.Canon b
  | .pypi v, b => v.Canon b
  | .maven v, b => v.Canon b

/-- The versioning systems of the source (`PyPI`, `NPM`, the stub `Cargo`,
and `mavenSystem`). -/
inductive VSystem where
  | pypi
  | npm
  | cargo
  | maven
deriving DecidableEq

/-- Interface dispatch of `System.Parse`; the `cargo` stub always errors. -/
def VSystem.Parse : VSystem → Str → Except ParseErr SysVersion
  | .pypi, s => (parsePyPIVersion s).map .pypi
  | .npm, s => (parseNPMVersion s).map .npm
  | .cargo, s => .error (parseErr (str "cargo") s (str "not yet implemented"))
  | .maven, s => (parseMavenVersion s).map .maven

/-- `Normalize` from `semver.go`: `Canon(true)` of the parsed version, or the
original string unchanged when parsing fails. -/
def Normalize (system : VSystem) (version : Str) : Str :=
  match system.Parse version with
  | .error _ => version
  | .ok v => v.Canon true

/-! ## The `Dependency` record

Modelled from the spec: the `internal/types` package is not among the
sources; §3 of the spec fixes the record shape (`Type`, `Name`, `Version`,
`Scope`, `Direct`, `SourceFile`; the free-form `Metadata` annex is never
semantically required and is omitted here).  The scope constants
(`types.ScopeProd = "prod"`, `types.ScopeDev = "dev"`, ...) and
`DependencyTypeRuby = "ruby"` are fixed by their uses in the sources. -/
structure Dependency where
  typ : Str
  name : Str
  version : Str
  scope : Str
  direct : Bool
  sourceFile : Str
deriving DecidableEq

/-- `types.ScopeProd`. -/
def ScopeProd : Str := str "prod"

/-- `types.ScopeDev`. -/
def ScopeDev : Str := str "dev"

/-- `DependencyTypeRuby`. -/
def DependencyTypeRuby : Str := str "ruby"

/-! ## npm package-lock parser (`src/unnamed/part_000`) -/

/-- `PackageInfo`: a package entry of `package-lock.json`, with the nested
`dependencies` tree of the v2 format. -/
inductive PackageInfo where
  | mk : Str → Bool → Bool → Bool → List (Str × PackageInfo) → PackageInfo

/-- The `Version` field. -/
def PackageInfo.version : PackageInfo → Str
  | .mk v _ _ _ _ => v

/-- The `Dev` flag. -/
def PackageInfo.dev : PackageInfo → Bool
  | .mk _ d _ _ _ => d

/-- The `Optional` flag. -/
def PackageInfo.optional : PackageInfo → Bool
  | .mk _ _ o _ _ => o

/-- The `Bundled` flag. -/
def PackageInfo.bundled : PackageInfo → Bool
  | .mk _ _ _ b _ => b

/-- The nested `Dependencies` map (modelled as an association list in JSON
iteration order; keys are unique in a JSON document). -/
def PackageInfo.dependencies : PackageInfo → List (Str × PackageInfo)
  | .mk _ _ _ _ d => d

/-- `PackageLockJSON`, the decoded `package-lock.json`.  The source decodes
the same bytes a second time as `PackageJSONEnhanced` to read top-level
`peerDependencies`/`optionalDependencies` name sets; both views of the
decoded document are carried here. -/
structure PackageLockJSON where
  name : Str
  version : Str
  lockfileVersion : Int
  packages : List (Str × PackageInfo)
  dependencies : List (Str × PackageInfo)
  peerDependencies : List Str
  optionalDependencies : List Str

/-- The declared-dependency view of `package.json` (only the key sets of
`dependencies`/`devDependencies` are consulted by the lock parser). -/
structure PackageJSON where
  name : Str
  dependencies : List Str
  devDependencies : List Str

/-- `ParsePackageLockOptions`. -/
structure ParsePackageLockOptions where
  includeTransitive : Bool

/-- `determineScopeFromLockfile`: peer, then optional (declared or flagged),
then dev (declared or flagged), then prod; default prod. -/
def determineScopeFromLockfile (name : Str) (pkg : PackageInfo)
    (prodDeps devDeps peerDeps optionalDeps : List Str) : Str :=
  if name ∈ peerDeps then str "peer"
  else if name ∈ optionalDeps ∨ pkg.optional then str "optional"
  else if name ∈ devDeps ∨ pkg.dev then str "dev"
  else if name ∈ prodDeps then str "prod"
  else str "prod"

/-- `extractNameFromNodeModulesPath`: split on `node_modules/`, take the last
segment; rejoin `@scope/name` for scoped packages, else the first component. -/
def extractNameFromNodeModulesPath (path : Str) : Str :=
  let segments := goSplit path (str "node_modules/")
  if segments.length < 2 then []
  else
    let lastSegment := goTrimSpace (segments.getLastD [])
    if lastSegment = [] then []
    else if goStarts lastSegment (str "@")
        ∧ (goSplit lastSegment (str "/")).length ≥ 2 then
      goJoin ((goSplit lastSegment (str "/")).take 2) (str "/")
    else
      let parts := goSplit lastSegment (str "/")
      if parts.length > 0 then parts.headD [] else lastSegment

/-- `parseDependenciesV2`: recursive walk of the v2 `dependencies` tree;
bundled entries are skipped together with their subtree; the accumulated
`path` is only threaded for traceability. -/
def parseDependenciesV2 :
    List (Str × PackageInfo) → Str → List Str → List Str → List Str → List Str →
      List Dependency
  | [], _, _, _, _, _ => []
  | (name, PackageInfo.mk ver dv op bd subdeps) :: rest,
      path, prodDeps, devDeps, peerDeps, optionalDeps =>
    (if bd then []
     else
      ⟨str "npm", name, ver,
        determineScopeFromLockfile name (PackageInfo.mk ver dv op bd subdeps)
          prodDeps devDeps peerDeps optionalDeps,
        false, str "package-lock.json"⟩
        :: (if subdeps.length > 0 then
              parseDependenciesV2 subdeps (path ++ str "node_modules/" ++ name ++ ['/'])
                prodDeps devDeps peerDeps optionalDeps
            else []))
      ++ parseDependenciesV2 rest path prodDeps devDeps peerDeps optionalDeps

/-- Every map key of a v2 `dependencies` tree in traversal order: each entry,
then its nested subtree, then its right siblings.  One element per map entry
across all nesting levels. -/
def v2AllNames : List (Str × PackageInfo) → List Str
  | [] => []
  | (name, PackageInfo.mk _ _ _ _ subdeps) :: rest =>
    name :: (v2AllNames subdeps ++ v2AllNames rest)

/-- `ParsePackageLockWithOptions` (the lock parser of `src/unnamed/part_000`):
v3+ `packages` walk — skip the root `""` entry, empty extracted names,
bundled entries, and (in default mode) paths whose `node_modules/` count is
not exactly 1 — else the v2 `dependencies` walk (recursive only in
transitive mode).  `Direct` is never assigned and stays at its zero value. -/
def ParsePackageLockWithOptions (lockfile : PackageLockJSON)
    (packageJSON : Option PackageJSON) (options : ParsePackageLockOptions) :
    List Dependency :=
  let prodDeps := match packageJSON with
    | some p => p.dependencies
    | none => []
  let devDeps := match packageJSON with
    | some p => p.devDependencies
    | none => []
  let peerDeps := match packageJSON with
    | some _ => lockfile.peerDependencies
    | none => []
  let optionalDeps := match packageJSON with
    | some _ => lockfile.optionalDependencies
    | none => []
  if lockfile.packages.length > 0 then
    lockfile.packages.filterMap fun e =>
      let path := e.1
      let pkg := e.2
      if path = [] then none
      else
        let name := extractNameFromNodeModulesPath path
        if name = [] then none
        else if pkg.bundled then none
        else if ¬ options.includeTransitive ∧ goCount path (str "node_modules/") ≠ 1 then
          none
        else
          some ⟨str "npm", name, pkg.version,
            determineScopeFromLockfile name pkg prodDeps devDeps peerDeps optionalDeps,
            false, str "package-lock.json"⟩
  else if lockfile.dependencies.length > 0 then
    if options.includeTransitive then
      parseDependenciesV2 lockfile.dependencies [] prodDeps devDeps peerDeps optionalDeps
    else
      lockfile.dependencies.filterMap fun e =>
        if e.2.bundled then none
        else
          some ⟨str "npm", e.1, e.2.version,
            determineScopeFromLockfile e.1 (PackageInfo.mk [] e.2.dev e.2.optional false [])
              prodDeps devDeps peerDeps optionalDeps,
            false, str "package-lock.json"⟩
  else []

/-! ## Gemfile.lock parser (`internal/scanner/parsers/gemfile_lock.go`) -/

/-- Matcher for `gemLockSpecRegex` = `^\s{4}(\S+)\s+\(([^)]+)\)`: exactly four
leading whitespace characters, a maximal non-space run (the gem name),
whitespace, and a parenthesized version; arbitrary trailing text. -/
def gemLockSpecMatch (line : Str) : Option (Str × Str) :=
  let ws4 := line.take 4
  if ws4.length = 4 ∧ ws4.all goIsSpace then
    let r0 := line.drop 4
    let name := r0.takeWhile (fun c => !goIsSpace c)
    if name = [] then none
    else
      let r1 := r0.drop name.length
      let sp := r1.takeWhile goIsSpace
      if sp = [] then none
      else
        match r1.drop sp.length with
        | '(' :: r2 =>
          let ver := r2.takeWhile (fun c => c ≠ ')')
          if ver = [] then none
          else
            match r2.drop ver.length with
            | ')' :: _ => some (name, ver)
            | _ => none
        | _ => none
  else none

/-- `parseDirectDependencies` loop over the `DEPENDENCIES` section: the first
whitespace-separated token of each line is a direct gem name. -/
def gemLockDirectGo (inDeps : Bool) : List Str → List Str
  | [] => []
  | line :: rest =>
    let t := goTrimSpace line
    if t = str "DEPENDENCIES" then gemLockDirectGo true rest
    else if inDeps ∧ (t = str "BUNDLED WITH" ∨ t = str "PLATFORMS" ∨ t = []) then
      gemLockDirectGo (if t ≠ [] then false else inDeps) rest
    else if ¬ inDeps then gemLockDirectGo inDeps rest
    else
      let parts := goFields goIsSpace t
      (if parts.length > 0 then [parts.headD []] else []) ++ gemLockDirectGo inDeps rest

/-- `parseDirectDependencies`. -/
def parseDirectDependencies (lines : List Str) : List Str :=
  gemLockDirectGo false lines

/-- Main loop of `ParseGemfileLockWithOptions` over the `GEM` section. -/
def gemLockSpecsGo (directDeps : List Str) (includeTransitive : Bool)
    (inGem : Bool) : List Str → List Dependency
  | [] => []
  | line :: rest =>
    let t := goTrimSpace line
    if t = str "GEM" then gemLockSpecsGo directDeps includeTransitive true rest
    else if t = str "PLATFORMS" ∨ t = str "DEPENDENCIES" then
      gemLockSpecsGo directDeps includeTransitive false rest
    else if ¬ inGem then gemLockSpecsGo directDeps includeTransitive inGem rest
    else if goStarts line (str "  remote:") ∨ t = [] ∨ t = str "specs:" then
      gemLockSpecsGo directDeps includeTransitive inGem rest
    else
      match gemLockSpecMatch line with
      | some nv =>
        let isDirect := nv.1 ∈ directDeps
        if ¬ includeTransitive ∧ ¬ isDirect then
          gemLockSpecsGo directDeps includeTransitive inGem rest
        else
          ⟨DependencyTypeRuby, nv.1, nv.2, ScopeProd, isDirect, []⟩
            :: gemLockSpecsGo directDeps includeTransitive inGem rest
      | none => gemLockSpecsGo directDeps includeTransitive inGem rest

/-- `ParseGemfileLockOptions`. -/
structure ParseGemfileLockOptions where
  includeTransitive : Bool

/-- `ParseGemfileLockWithOptions`: collect the direct-name set from the
`DEPENDENCIES` section, then emit one dependency per matching 4-space spec
line of the `GEM` section, with `Direct` by direct-set membership and scope
fixed at `prod`; non-direct specs are dropped unless `IncludeTransitive`. -/
def ParseGemfileLockWithOptions (content : Str) (options : ParseGemfileLockOptions) :
    List Dependency :=
  let lines := goSplit content (str "\n")
  gemLockSpecsGo (parseDirectDependencies lines) options.includeTransitive false lines

/-! ## Gemfile parser (`internal/scanner/parsers/gemfile.go`) -/

/-- Go's `\w` class. -/
def isWordChar (c : Char) : Bool :=
  isDigit c || ('a' ≤ c && c ≤ 'z') || ('A' ≤ c && c ≤ 'Z') || c == '_'

/-- Scanner state for the `(?:\s*,\s*:?(\w+))*` loop of `rubyGroupRegex`. -/
inductive GrpState where
  | beforeComma
  | afterComma
  | wordStart
  | inWord (acc : Str)

/-- The `(?:\s*,\s*:?(\w+))*` loop of `rubyGroupRegex`; a repeated capturing
group in Go keeps only its last iteration, so only the final `\w+` capture
survives (`gLast`).  `orig` is the input position at the start of the
current iteration attempt, returned as the loop's end position.  Failure
inside an entered iteration fails the whole match at this start position
(backtracking can never repair it: every abandoned character class leaves a
character that the follow-up pattern rejects). -/
def grpLoop : GrpState → Option Str → Str → Str → Option (Option Str × Str)
  | .beforeComma, gLast, orig, [] => some (gLast, orig)
  | .beforeComma, gLast, orig, c :: rest =>
    if c == ',' then grpLoop .afterComma gLast orig rest
    else if goIsSpace c then grpLoop .beforeComma gLast orig rest
    else some (gLast, orig)
  | .afterComma, _, _, [] => none
  | .afterComma, gLast, orig, c :: rest =>
    if goIsSpace c then grpLoop .afterComma gLast orig rest
    else if c == ':' then grpLoop .wordStart gLast orig rest
    else if isWordChar c then grpLoop (.inWord [c]) gLast orig rest
    else none
  | .wordStart, _, _, [] => none
  | .wordStart, gLast, orig, c :: rest =>
    if isWordChar c then grpLoop (.inWord [c]) gLast orig rest else none
  | .inWord acc, _, _, [] => some (some acc.reverse, [])
  | .inWord acc, gLast, orig, c :: rest =>
    if isWordChar c then grpLoop (.inWord (c :: acc)) gLast orig rest
    else if c == ',' then grpLoop .afterComma (some acc.reverse) (c :: rest) rest
    else if goIsSpace c then grpLoop .beforeComma (some acc.reverse) (c :: rest) rest
    else some (some acc.reverse, c :: rest)

/-- Matcher for `rubyGroupRegex` = `group\s+:?(\w+)(?:\s*,\s*:?(\w+))*\s+do`
anchored at the start of `s`; returns the two captures (first named group,
and the last one when the loop ran). -/
def matchGroupAt (s : Str) : Option (Str × Option Str) :=
  if goStarts s (str "group") then
    let r1 := s.drop 5
    let sp1 := r1.takeWhile goIsSpace
    if sp1 = [] then none
    else
      let r2 := r1.drop sp1.length
      let r3 := if goStarts r2 (str ":") then r2.drop 1 else r2
      let g1 := r3.takeWhile isWordChar
      if g1 = [] then none
      else
        match grpLoop .beforeComma none (r3.drop g1.length) (r3.drop g1.length) with
        | none => none
        | some gr =>
          let spF := gr.2.takeWhile goIsSpace
          if spF = [] then none
          else if goStarts (gr.2.drop spF.length) (str "do") then some (g1, gr.1)
          else none
  else none

/-- Unanchored leftmost search with `rubyGroupRegex`. -/
def rubyGroupFind : Str → Option (Str × Option Str)
  | [] => none
  | c :: rest =>
    match matchGroupAt (c :: rest) with
    | some r => some r
    | none => rubyGroupFind rest

/-- Matcher for `gem ['"]([^'"]+)['"]` at the start of `s`
(`rubyDepRegexNoVersion`). -/
def matchGemNoVerAt (s : Str) : Option Str :=
  if goStarts s (str "gem ") then
    match s.drop 4 with
    | q :: r1 =>
      if q == '\'' || q == '"' then
        let name := r1.takeWhile (fun c => c ≠ '\'' && c ≠ '"')
        if name = [] then none
        else
          match r1.drop name.length with
          | q2 :: _ => if q2 == '\'' || q2 == '"' then some name else none
          | [] => none
      else none
    | [] => none
  else none

/-- Matcher for `gem ['"]([^'"]+)['"],\s*['"]([^'"]+)['"]` at the start of `s`
(`rubyDepRegexWithVersion`). -/
def matchGemWithVerAt (s : Str) : Option (Str × Str) :=
  if goStarts s (str "gem ") then
    match s.drop 4 with
    | q :: r1 =>
      if q == '\'' || q == '"' then
        let name := r1.takeWhile (fun c => c ≠ '\'' && c ≠ '"')
        if name = [] then none
        else
          match r1.drop name.length with
          | q2 :: r3 =>
            if q2 == '\'' || q2 == '"' then
              match r3 with
              | ',' :: r4 =>
                let r5 := r4.drop (r4.takeWhile goIsSpace).length
                match r5 with
                | q3 :: r6 =>
                  if q3 == '\'' || q3 == '"' then
                    let ver := r6.takeWhile (fun c => c ≠ '\'' && c ≠ '"')
                    if ver = [] then none
                    else
                      match r6.drop ver.length with
                      | q4 :: _ =>
                        if q4 == '\'' || q4 == '"' then some (name, ver) else none
                      | [] => none
                  else none
                | [] => none
              | _ => none
            else none
          | [] => none
      else none
    | [] => none
  else none

/-- Unanchored leftmost search with `rubyDepRegexNoVersion`. -/
def rubyGemFindNoVer : Str → Option Str
  | [] => none
  | c :: rest =>
    match matchGemNoVerAt (c :: rest) with
    | some r => some r
    | none => rubyGemFindNoVer rest

/-- Unanchored leftmost search with `rubyDepRegexWithVersion`. -/
def rubyGemFindWithVer : Str → Option (Str × Str)
  | [] => none
  | c :: rest =>
    match matchGemWithVerAt (c :: rest) with
    | some r => some r
    | none => rubyGemFindWithVer rest

/-- `mapGemfileGroupToScope`: `dev` iff some active group is `test` or
`development`, else `prod` (empty group list is `prod`). -/
def mapGemfileGroupToScope (groups : List Str) : Str :=
  if groups = [] then ScopeProd
  else if (str "test") ∈ groups then ScopeDev
  else if (str "development") ∈ groups then ScopeDev
  else ScopeProd

/-- Line loop of `ParseGemfile`: group headers replace the active-group list
(the two regex captures) and bump the depth; a bare `end` at positive depth
pops it, clearing the list at depth 0; comment/empty lines are skipped; gem
lines match the with-version pattern first, falling back to the
without-version pattern with version `latest`; empty gem names are dropped. -/
def gemfileGo (groups : List Str) (depth : Nat) : List Str → List Dependency
  | [] => []
  | line :: rest =>
    let t := goTrimSpace line
    match rubyGroupFind t with
    | some caps =>
      let groups' := [caps.1] ++ (match caps.2 with
        | some g => [g]
        | none => [])
      gemfileGo groups' (depth + 1) rest
    | none =>
      if t = str "end" ∧ depth > 0 then
        let depth' := depth - 1
        gemfileGo (if depth' = 0 then [] else groups) depth' rest
      else if t = [] ∨ goStarts t (str "#") then gemfileGo groups depth rest
      else
        match rubyGemFindWithVer t with
        | some nv =>
          (if nv.1 = [] then []
           else [⟨DependencyTypeRuby, nv.1, nv.2, mapGemfileGroupToScope groups, true, []⟩])
            ++ gemfileGo groups depth rest
        | none =>
          match rubyGemFindNoVer t with
          | some name =>
            (if name = [] then []
             else [⟨DependencyTypeRuby, name, str "latest",
                     mapGemfileGroupToScope groups, true, []⟩])
              ++ gemfileGo groups depth rest
          | none => gemfileGo groups depth rest

/-- `ParseGemfile`. -/
def ParseGemfile (content : Str) : List Dependency :=
  gemfileGo [] 0 (goSplit content (str "\n"))

/-! ## Yarn Berry version normalization
(`internal/scanner/parsers/yarn_lock.go`) -/

/-- `parseYarnVersion`: version emitted for a Berry entry, by `specType`. -/
def parseYarnVersion (version specType resolution : Str) : Str :=
  let version := goTrimSpace version
  if specType = str "workspace" then
    -- both source branches return "workspace"
    if goContains resolution (str "workspace:") then str "workspace" else str "workspace"
  else if specType = str "patch" then str "patch"
  else if specType = str "npm" then
    if version = [] ∨ version = str "*" then str "latest" else version
  else if specType = str "git" then
    if resolution ≠ [] then str "git:" ++ resolution else str "git"
  else if specType = str "file" then str "local"
  else if specType = str "tarball" then
    if goStarts resolution (str "file:") then str "local" else str "tarball"
  else if version = [] ∨ version = str "*" then str "latest"
  else version

/-! ## Concrete inputs used by the theorems -/

/-- The root `""` entry of the transitive-test lockfile. -/
def rootPkg : PackageInfo := .mk (str "1.0.0") false false false []

/-- `node_modules/express` at version 4.18.2. -/
def expressPkg : PackageInfo := .mk (str "4.18.2") false false false []

/-- `node_modules/express/node_modules/accepts` at version 1.3.8. -/
def acceptsPkg : PackageInfo := .mk (str "1.3.8") false false false []

/-- The v3+ lockfile of `npm_lock_transitive_test.go`, restricted to
`express` and its nested `accepts` (the shape of the C1 scenario). -/
def lockExpress : PackageLockJSON :=
  { name := str "test-project", version := str "1.0.0", lockfileVersion := 2,
    packages := [(str "", rootPkg),
                 (str "node_modules/express", expressPkg),
                 (str "node_modules/express/node_modules/accepts", acceptsPkg)],
    dependencies := [], peerDependencies := [], optionalDependencies := [] }

/-- The matching `package.json` declaring `express` as a prod dependency. -/
def pkgJSONExpress : PackageJSON :=
  { name := str "test-project", dependencies := [str "express"], devDependencies := [] }

/-- A v3+ lockfile whose `packages` map holds two distinct path keys that
both extract the package name `express`. -/
def lockDupName : PackageLockJSON :=
  { name := [], version := [], lockfileVersion := 3,
    packages := [(str "node_modules/express", expressPkg),
                 (str "node_modules/foo/node_modules/express",
                    .mk (str "4.0.0") false false false [])],
    dependencies := [], peerDependencies := [], optionalDependencies := [] }

/-- A v2-format lockfile (empty `packages`): `express` carries a nested
`accepts`, and `accepts` also appears as a top-level sibling — so the
transitive recursive walk meets the name `accepts` at two map entries. -/
def lockV2Nested : PackageLockJSON :=
  { name := str "app", version := str "1.0.0", lockfileVersion := 2,
    packages := [],
    dependencies :=
      [(str "express", PackageInfo.mk (str "4.18.2") false false false
          [(str "accepts", PackageInfo.mk (str "1.3.8") false false false [])]),
       (str "accepts", PackageInfo.mk (str "1.3.8") false false false [])],
    peerDependencies := [], optionalDependencies := [] }

/-- Gemfile.lock content with `rails`/`pg` as direct dependencies, where
`actionpack` appears only as a 6-space nested sub-line of `rails` —
the literal setting of claim C3. -/
def gemfileLockNestedOnly : Str :=
  str "GEM\n  remote: https://rubygems.org/\n  specs:\n    rails (7.1.0)\n      actionpack (= 7.1.0)\n    pg (1.5.4)\n\nPLATFORMS\n  ruby\n\nDEPENDENCIES\n  rails (= 7.1.0)\n  pg (~> 1.5)\n"

/-- The same Gemfile.lock with `actionpack` additionally listed as its own
4-space spec line, as real lockfiles do. -/
def gemfileLockWithSpec : Str :=
  str "GEM\n  remote: https://rubygems.org/\n  specs:\n    rails (7.1.0)\n      actionpack (= 7.1.0)\n    pg (1.5.4)\n    actionpack (7.1.0)\n\nPLATFORMS\n  ruby\n\nDEPENDENCIES\n  rails (= 7.1.0)\n  pg (~> 1.5)\n"

/-- A Gemfile whose group header names three groups, `test` in the middle. -/
def gemfileThreeGroups : Str :=
  str "group :a, :test, :b do\ngem 'foo'\nend\n"

/-! ## Theorems for the claims -/

/-- Claim C4 (code evaluated at the failing input):  `Parse` accepts the
non-PEP-440 string `0!1.0+a!b` (epoch 0, release `1.0`, local `a!b`); its
canonical form is `1.0+a!b`, on which `Parse` fails (`strconv.Atoi` chokes on
the pseudo-epoch `1.0+a` in front of the `!` carried by the local segment) —
so `Canon∘Parse` is not idempotent on everything `Parse` accepts. -/
theorem pypi_canon_roundtrip_fails_on_local_bang :
    parsePyPIVersion (str "0!1.0+a!b")
        = .ok ⟨str "0!1.0+a!b", 0, [1, 0], none, none, none, str "a!b"⟩
      ∧ PyPIVersion.Canon ⟨str "0!1.0+a!b", 0, [1, 0], none, none, none, str "a!b"⟩ true
        = str "1.0+a!b"
      ∧ parsePyPIVersion (str "1.0+a!b")
        = .error (parseErr (str "PyPI") (str "1.0+a!b") (str "invalid epoch: 1.0+a")) := by
  refine ⟨by decide, by decide, by decide⟩

/-- Claim C6:  Maven canonicalization: `1.0.0-RELEASE` strips its qualifier,
`[1.0,2.0)` renders as `1.0-2.0`, half-open ranges render as `>=lower` /
`<=upper`, the fully open range as `*`, and each range bound is
canonicalized independently (`[1.0.0-RELEASE,2.0.0.GA]` → `1.0.0-2.0.0`). -/
theorem maven_canon_versions_and_ranges :
    (∃ v, parseMavenVersion (str "1.0.0-RELEASE") = .ok v ∧ v.Canon false = str "1.0.0")
      ∧ (∃ v, parseMavenVersion (str "[1.0,2.0)") = .ok v ∧ v.Canon false = str "1.0-2.0")
      ∧ canonicalizeMavenRange (str "[1.0,]") = str ">=1.0"
      ∧ canonicalizeMavenRange (str "(,2.0]") = str "<=2.0"
      ∧ canonicalizeMavenRange (str "(,)") = str "*"
      ∧ (∃ v, parseMavenVersion (str "[1.0.0-RELEASE,2.0.0.GA]") = .ok v
            ∧ v.Canon false = str "1.0.0-2.0.0") := by
  refine ⟨⟨⟨str "1.0.0-RELEASE", str "1.0.0", false⟩, by decide, by decide⟩,
    ⟨⟨str "[1.0,2.0)", str "1.0-2.0", true⟩, by decide, by decide⟩,
    by decide, by decide, by decide,
    ⟨⟨str "[1.0.0-RELEASE,2.0.0.GA]", str "1.0.0-2.0.0", true⟩, by decide, by decide⟩⟩

/-- Claim C1 (code evaluated at the failing input): on the claim's lockfile,
default mode returns exactly `express` and transitive mode additionally
`accepts` — but the parser never assigns `Direct`, so it is `false` even for
`express` (the claim expects `true` there). -/
theorem package_lock_express_direct_unset :
    (ParsePackageLockWithOptions lockExpress (some pkgJSONExpress) ⟨false⟩).map
        (fun d => (d.name, d.version, d.direct))
      = [(str "express", str "4.18.2", false)]
      ∧ (ParsePackageLockWithOptions lockExpress (some pkgJSONExpress) ⟨true⟩).map
          (fun d => (d.name, d.version, d.direct))
        = [(str "express", str "4.18.2", false), (str "accepts", str "1.3.8", false)] := by
  refine ⟨by decide, by decide⟩

/-- Claim C2, counterexample: in transitive v3+ mode two distinct `packages`
keys that extract the same name yield two records with the same
`(Type, Name)` pair — the parser performs no deduplication. -/
theorem package_lock_emits_duplicate_type_name :
    (ParsePackageLockWithOptions lockDupName none ⟨true⟩).map (fun d => (d.typ, d.name))
      = [(str "npm", str "express"), (str "npm", str "express")] := by
  decide

/-- Claim C3, counterexample: when `actionpack` appears only as a deeper-
indented nested sub-line (never as its own 4-space spec), even transitive
mode does not return it — the spec-line regex requires exactly four leading
spaces, so nested sub-lines are ignored entirely. -/
theorem gemfile_lock_nested_only_not_returned :
    (ParseGemfileLockWithOptions gemfileLockNestedOnly ⟨true⟩).map (fun d => d.name)
      = [str "rails", str "pg"]
      ∧ str "actionpack"
          ∉ (ParseGemfileLockWithOptions gemfileLockNestedOnly ⟨true⟩).map (fun d => d.name) := by
  refine ⟨by decide, by decide⟩

/-- Claim C3, amended: with `actionpack` also present as its own 4-space spec
line, default mode returns exactly `{rails, pg}` with `Direct=true`, and
transitive mode additionally returns `actionpack` with `Direct=false`. -/
theorem gemfile_lock_direct_and_transitive :
    (ParseGemfileLockWithOptions gemfileLockWithSpec ⟨false⟩).map
        (fun d => (d.name, d.version, d.direct))
      = [(str "rails", str "7.1.0", true), (str "pg", str "1.5.4", true)]
      ∧ (ParseGemfileLockWithOptions gemfileLockWithSpec ⟨true⟩).map
          (fun d => (d.name, d.version, d.direct))
        = [(str "rails", str "7.1.0", true), (str "pg", str "1.5.4", true),
           (str "actionpack", str "7.1.0", false)] := by
  refine ⟨by decide, by decide⟩

theorem goStrCmp_self (x : Str) : goStrCmp x x = 0 := by
  induction x with
  | nil => rfl
  | cons a as_ ih => simp [goStrCmp, ih]

theorem comparePrereleaseIdentifier_self (x : Str) :
    comparePrereleaseIdentifier x x = 0 := by
  unfold comparePrereleaseIdentifier
  cases h : goAtoi x with
  | none => simp [goStrCmp_self]
  | some n => simp [compareInt]

theorem cpiList_self_append (l t : List Str) :
    cpiList l (l ++ t) = compareInt l.length (l ++ t).length := by
  induction l with
  | nil =>
    cases t with
    | nil => rfl
    | cons o os =>
      simp only [List.nil_append, List.length_nil, List.length_cons, cpiList]
      unfold compareInt
      simp only [Int.ofNat_eq_natCast]
      push_cast
      split_ifs <;> rfl
  | cons a as_ ih =>
    simp only [List.cons_append, cpiList, comparePrereleaseIdentifier_self a,
      ne_eq, not_true_eq_false, if_false, List.length_cons, List.append_eq]
    rw [ih]
    unfold compareInt
    push_cast
    split_ifs <;> first | rfl | omega

/-- Claim C5, counterexample: an all-digit prerelease identifier whose value
is at or beyond `2^63` makes `strconv.Atoi` fail with `ErrRange`, so the code
treats it as alphanumeric and compares it lexically: `1.0.0-99999999999999999999`
is ranked above `1.0.0-100000000000000000000`, although as numbers the first
prerelease identifier is the smaller — the claim's unconditional "numeric
identifiers compare numerically" fails on the program. -/
theorem npm_huge_numeric_prerelease_lexical :
    ∃ a b, parseNPMVersion (str "1.0.0-99999999999999999999") = .ok a
      ∧ parseNPMVersion (str "1.0.0-100000000000000000000") = .ok b
      ∧ a.Compare b = 1
      ∧ goAtoi (str "99999999999999999999") = none
      ∧ compareInt (99999999999999999999 : Int) (100000000000000000000 : Int) = -1 :=
  ⟨⟨str "1.0.0-99999999999999999999", 1, 0, 0, [str "99999999999999999999"], []⟩,
   ⟨str "1.0.0-100000000000000000000", 1, 0, 0, [str "100000000000000000000"], []⟩,
   by decide, by decide, by decide, by decide, by decide⟩

/-- Claim C5, amended: npm `Compare` follows the semver 2.0.0 prerelease rules
with "numeric" meaning accepted by `strconv.Atoi` (64-bit range — all-digit
identifiers at or beyond `2^63` fail with `ErrRange` and compare lexically as
alphanumerics): the two spec examples; for versions with an equal numeric
triple, no-prerelease beats has-prerelease; `Atoi`-numeric identifiers compare
numerically and rank below non-numeric ones, non-numeric ones compare
lexically; when all shared identifiers agree the longer list wins; and build
metadata never affects the result. -/
theorem npm_compare_prerelease_rules :
    (∃ a b, parseNPMVersion (str "1.0.0") = .ok a
        ∧ parseNPMVersion (str "1.0.0-alpha") = .ok b ∧ a.Compare b = 1)
      ∧ (∃ a b, parseNPMVersion (str "1.0.0-1") = .ok a
          ∧ parseNPMVersion (str "1.0.0-alpha") = .ok b ∧ a.Compare b = -1)
      ∧ (∀ v o : NPMVersion, npmCompareCore v o = 0 → v.prerelease = [] →
          o.prerelease ≠ [] → v.Compare o = 1)
      ∧ (∀ v o : NPMVersion, npmCompareCore v o = 0 → v.prerelease ≠ [] →
          o.prerelease = [] → v.Compare o = -1)
      ∧ (∀ (x y : Str) (nx ny : Int), goAtoi x = some nx → goAtoi y = some ny →
          comparePrereleaseIdentifier x y = compareInt nx ny)
      ∧ (∀ (x y : Str) (nx : Int), goAtoi x = some nx → goAtoi y = none →
          comparePrereleaseIdentifier x y = -1)
      ∧ (∀ (x y : Str) (ny : Int), goAtoi x = none → goAtoi y = some ny →
          comparePrereleaseIdentifier x y = 1)
      ∧ (∀ x y : Str, goAtoi x = none → goAtoi y = none →
          comparePrereleaseIdentifier x y = goStrCmp x y)
      ∧ (∀ (v o : NPMVersion) (t : List Str), npmCompareCore v o = 0 →
          v.prerelease ≠ [] → o.prerelease = v.prerelease ++ t →
          v.Compare o = compareInt v.prerelease.length o.prerelease.length)
      ∧ (∀ (v o : NPMVersion) (b1 b2 : List Str),
          NPMVersion.Compare { v with build := b1 } { o with build := b2 }
            = v.Compare o) := by
  refine ⟨⟨⟨str "1.0.0", 1, 0, 0, [], []⟩, ⟨str "1.0.0-alpha", 1, 0, 0, [str "alpha"], []⟩,
      by decide, by decide, by decide⟩,
    ⟨⟨str "1.0.0-1", 1, 0, 0, [str "1"], []⟩, ⟨str "1.0.0-alpha", 1, 0, 0, [str "alpha"], []⟩,
      by decide, by decide, by decide⟩, ?_, ?_, ?_, ?_, ?_, ?_, ?_, ?_⟩
  · intro v o h h1 h2
    simp [NPMVersion.Compare, h, npmComparePrerelease, h1, h2]
  · intro v o h h1 h2
    simp [NPMVersion.Compare, h, npmComparePrerelease, h1, h2]
  · intro x y nx ny hx hy
    simp [comparePrereleaseIdentifier, hx, hy]
  · intro x y nx hx hy
    simp [comparePrereleaseIdentifier, hx, hy]
  · intro x y ny hx hy
    simp [comparePrereleaseIdentifier, hx, hy]
  · intro x y hx hy
    simp [comparePrereleaseIdentifier, hx, hy]
  · intro v o t h h1 h2
    have h2' : o.prerelease ≠ [] := by
      rw [h2]; intro hc
      exact h1 (List.append_eq_nil.mp hc).1
    simp only [NPMVersion.Compare, h, ne_eq, not_true_eq_false, if_false,
      npmComparePrerelease, h1, h2', and_true, and_false, false_and, if_false]
    rw [h2, cpiList_self_append]
  · intro v o b1 b2
    cases v
    cases o
    rfl

/-- Closed witness for `npm_compare_prerelease_rules`. -/
theorem npm_compare_prerelease_rules_witness :
    NPMVersion.Compare ⟨str "2.0.0", 2, 0, 0, [], []⟩
        ⟨str "2.0.0-rc.1", 2, 0, 0, [str "rc", str "1"], []⟩ = 1
      ∧ comparePrereleaseIdentifier (str "5") (str "12") = compareInt 5 12
      ∧ NPMVersion.Compare ⟨str "1.0.0-a", 1, 0, 0, [str "a"], []⟩
          ⟨str "1.0.0-a.b", 1, 0, 0, [str "a", str "b"], []⟩
        = compareInt (1 : Int) (2 : Int) :=
  ⟨npm_compare_prerelease_rules.2.2.1 _ _ (by decide) rfl (by decide),
   npm_compare_prerelease_rules.2.2.2.2.1 (str "5") (str "12") 5 12 (by decide) (by decide),
   npm_compare_prerelease_rules.2.2.2.2.2.2.2.2.1 _ _ [str "b"] (by decide) (by decide) rfl⟩

/-- Claim C7: `Normalize` returns `Canon(true)` of the parsed version on
success and the original string unchanged on parse failure, for every
versioning system; as a total function it never raises. -/
theorem normalize_canon_or_identity :
    ∀ (system : VSystem) (raw : Str),
      (∀ v, system.Parse raw = .ok v → Normalize system raw = v.Canon true)
        ∧ (∀ e, system.Parse raw = .error e → Normalize system raw = raw) := by
  intro system raw
  constructor
  · intro v h
    simp [Normalize, h]
  · intro e h
    simp [Normalize, h]

/-- Closed witness for `normalize_canon_or_identity`. -/
theorem normalize_canon_or_identity_witness :
    Normalize .npm (str "v1.2") = (SysVersion.npm ⟨str "v1.2", 1, 2, 0, [], []⟩).Canon true
      ∧ Normalize .cargo (str "1.2.3") = str "1.2.3"
      ∧ Normalize .pypi (str "not a version") = str "not a version" :=
  ⟨(normalize_canon_or_identity .npm (str "v1.2")).1 _ (by decide),
   (normalize_canon_or_identity .cargo (str "1.2.3")).2
     (parseErr (str "cargo") (str "1.2.3") (str "not yet implemented")) (by decide),
   (normalize_canon_or_identity .pypi (str "not a version")).2
     (parseErr (str "PyPI") (str "not a version") (str "invalid pre-release number:  version"))
     (by decide)⟩

/-- Claim C8, counterexample: a `file` entry whose resolution does not start
with `file:` still yields `local` (the source returns `local` for `file`
unconditionally), where the claim predicts `tarball`. -/
theorem yarn_file_entry_yields_local_not_tarball :
    parseYarnVersion (str "1.0.0") (str "file") (str "https://example.com/a.tgz") = str "local"
      ∧ goStarts (str "https://example.com/a.tgz") (str "file:") = false
      ∧ str "local" ≠ str "tarball" := by
  refine ⟨by decide, by decide, by decide⟩

/-- Claim C8, amended: the emitted version by `specType`: `workspace`→
`"workspace"`, `patch`→`"patch"`, `npm`→ the (trimmed) range unchanged with
empty/`*`→`"latest"`, `git`→`"git:"+resolution` when a resolution was
captured else `"git"`, `file`→`"local"` unconditionally, and `tarball`→
`"local"` iff the resolution starts with `file:`, else `"tarball"`. -/
theorem yarn_version_by_spec_type :
    ∀ (version resolution : Str),
      parseYarnVersion version (str "workspace") resolution = str "workspace"
      ∧ parseYarnVersion version (str "patch") resolution = str "patch"
      ∧ (goTrimSpace version = [] ∨ goTrimSpace version = str "*" →
          parseYarnVersion version (str "npm") resolution = str "latest")
      ∧ (goTrimSpace version ≠ [] → goTrimSpace version ≠ str "*" →
          parseYarnVersion version (str "npm") resolution = goTrimSpace version)
      ∧ (resolution ≠ [] →
          parseYarnVersion version (str "git") resolution = str "git:" ++ resolution)
      ∧ (resolution = [] → parseYarnVersion version (str "git") resolution = str "git")
      ∧ parseYarnVersion version (str "file") resolution = str "local"
      ∧ (goStarts resolution (str "file:") = true →
          parseYarnVersion version (str "tarball") resolution = str "local")
      ∧ (goStarts resolution (str "file:") = false →
          parseYarnVersion version (str "tarball") resolution = str "tarball") := by
  intro version resolution
  refine ⟨?_, ?_, ?_, ?_, ?_, ?_, ?_, ?_, ?_⟩
  · simp only [parseYarnVersion]
    rw [if_pos trivial]
    exact ite_self _
  · simp only [parseYarnVersion]
    rw [if_neg (by decide), if_pos trivial]
  · intro h
    simp only [parseYarnVersion]
    rw [if_neg (by decide), if_neg (by decide), if_pos trivial, if_pos h]
  · intro h1 h2
    simp only [parseYarnVersion]
    rw [if_neg (by decide), if_neg (by decide), if_pos trivial, if_neg (not_or.mpr ⟨h1, h2⟩)]
  · intro h
    simp only [parseYarnVersion]
    rw [if_neg (by decide), if_neg (by decide), if_neg (by decide), if_pos trivial, if_pos h]
  · intro h
    simp only [parseYarnVersion]
    rw [if_neg (by decide), if_neg (by decide), if_neg (by decide), if_pos trivial,
      if_neg (fun hne => hne h)]
  · simp only [parseYarnVersion]
    rw [if_neg (by decide), if_neg (by decide), if_neg (by decide), if_neg (by decide),
      if_pos trivial]
  · intro h
    simp only [parseYarnVersion]
    rw [if_neg (by decide), if_neg (by decide), if_neg (by decide), if_neg (by decide),
      if_neg (by decide), if_pos trivial, if_pos h]
  · intro h
    simp only [parseYarnVersion]
    rw [if_neg (by decide), if_neg (by decide), if_neg (by decide), if_neg (by decide),
      if_neg (by decide), if_pos trivial, if_neg (by simp [h])]

/-- Closed witness for `yarn_version_by_spec_type`. -/
theorem yarn_version_by_spec_type_witness :
    parseYarnVersion (str "^1.2.0") (str "npm") [] = goTrimSpace (str "^1.2.0")
      ∧ parseYarnVersion (str "x") (str "git") (str "repo@git+ssh") = str "git:" ++ str "repo@git+ssh"
      ∧ parseYarnVersion (str "x") (str "tarball") (str "https://x") = str "tarball" :=
  ⟨(yarn_version_by_spec_type (str "^1.2.0") []).2.2.2.1 (by decide) (by decide),
   (yarn_version_by_spec_type (str "x") (str "repo@git+ssh")).2.2.2.2.1 (by decide),
   (yarn_version_by_spec_type (str "x") (str "https://x")).2.2.2.2.2.2.2.2 (by decide)⟩

theorem filterMap_map_sublist {α β γ : Type} (f : α → Option β) (g : β → γ) (h : α → γ)
    (l : List α) (H : ∀ a b, f a = some b → g b = h a) :
    List.Sublist ((l.filterMap f).map g) (l.map h) := by
  induction l with
  | nil => simp
  | cons a as_ ih =>
    cases hfa : f a with
    | none =>
      simp only [List.filterMap_cons, hfa, List.map_cons]
      exact ih.cons _
    | some b =>
      simp only [List.filterMap_cons, hfa, List.map_cons, H a b hfa]
      exact ih.cons₂ _

theorem parseDependenciesV2_names_sublist :
    ∀ (deps : List (Str × PackageInfo)) (path : Str) (p1 p2 p3 p4 : List Str),
      List.Sublist
        ((parseDependenciesV2 deps path p1 p2 p3 p4).map (fun d => (d.typ, d.name)))
        ((v2AllNames deps).map (fun n => (str "npm", n)))
  | [], _, _, _, _, _ => by simp [parseDependenciesV2, v2AllNames]
  | (name, PackageInfo.mk ver dv op bd subdeps) :: rest, path, p1, p2, p3, p4 => by
    simp only [parseDependenciesV2, v2AllNames, List.map_cons, List.map_append]
    cases bd with
    | true =>
      rw [if_pos rfl]
      simp only [List.map_nil, List.nil_append]
      exact (List.sublist_append_of_sublist_right
        (parseDependenciesV2_names_sublist rest path p1 p2 p3 p4)).cons _
    | false =>
      rw [if_neg (by simp)]
      by_cases hs : subdeps.length > 0
      · rw [if_pos hs]
        simp only [List.map_cons, List.map_append, List.cons_append]
        exact ((parseDependenciesV2_names_sublist subdeps _ p1 p2 p3 p4).append
          (parseDependenciesV2_names_sublist rest path p1 p2 p3 p4)).cons₂ _
      · rw [if_neg hs]
        simp only [List.map_cons, List.map_nil, List.nil_append, List.cons_append]
        exact (List.sublist_append_of_sublist_right
          (parseDependenciesV2_names_sublist rest path p1 p2 p3 p4)).cons₂ _

/-- Claim C2, amended: every mode of the npm lock parser emits at most one
record per lockfile-map entry — the emitted `(Type, Name)` list is a sublist
of the per-entry names (extracted path names in v3+ mode, map keys in v2
non-transitive mode, and map keys across all nesting levels in the recursive
v2 transitive mode) — so per-`(Type, Name)` uniqueness holds exactly when
the kept entries carry distinct names; the parser itself performs no
deduplication. -/
theorem package_lock_name_per_entry :
    ∀ (lf : PackageLockJSON) (pj : Option PackageJSON) (opts : ParsePackageLockOptions),
      (lf.packages.length > 0 →
        List.Sublist
          ((ParsePackageLockWithOptions lf pj opts).map (fun d => (d.typ, d.name)))
          (lf.packages.map (fun e => (str "npm", extractNameFromNodeModulesPath e.1))))
      ∧ (lf.packages = [] → opts.includeTransitive = false →
          List.Sublist
            ((ParsePackageLockWithOptions lf pj opts).map (fun d => (d.typ, d.name)))
            (lf.dependencies.map (fun e => (str "npm", e.1))))
      ∧ (lf.packages = [] → opts.includeTransitive = true →
          List.Sublist
            ((ParsePackageLockWithOptions lf pj opts).map (fun d => (d.typ, d.name)))
            ((v2AllNames lf.dependencies).map (fun n => (str "npm", n)))) := by
  intro lf pj opts
  refine ⟨?_, ?_, ?_⟩
  · intro h
    unfold ParsePackageLockWithOptions
    rw [if_pos h]
    refine filterMap_map_sublist _ _ _ _ ?_
    intro e d hfd
    simp only at hfd
    split_ifs at hfd with h1 h2 h3 h4
    have hd := Option.some.inj hfd
    subst hd
    rfl
  · intro h h2
    unfold ParsePackageLockWithOptions
    rw [if_neg (by simp [h])]
    by_cases hd : lf.dependencies.length > 0
    · rw [if_pos hd, if_neg (by simp [h2])]
      refine filterMap_map_sublist _ _ _ _ ?_
      intro e d hfd
      simp only at hfd
      split_ifs at hfd with h1
      have hd := Option.some.inj hfd
      subst hd
      rfl
    · rw [if_neg hd]
      exact List.nil_sublist _
  · intro h ht
    unfold ParsePackageLockWithOptions
    rw [if_neg (by simp [h])]
    by_cases hd : lf.dependencies.length > 0
    · rw [if_pos hd, if_pos ht]
      exact parseDependenciesV2_names_sublist lf.dependencies [] _ _ _ _
    · rw [if_neg hd]
      exact List.nil_sublist _

/-- Closed witness for `package_lock_name_per_entry`: the v3+ lockfile with a
duplicated extracted name, and the recursive v2 lockfile in transitive
mode. -/
theorem package_lock_name_per_entry_witness :
    List.Sublist
      ((ParsePackageLockWithOptions lockDupName none ⟨true⟩).map (fun d => (d.typ, d.name)))
      (lockDupName.packages.map (fun e => (str "npm", extractNameFromNodeModulesPath e.1)))
    ∧ List.Sublist
        ((ParsePackageLockWithOptions lockV2Nested none ⟨true⟩).map (fun d => (d.typ, d.name)))
        ((v2AllNames lockV2Nested.dependencies).map (fun n => (str "npm", n))) :=
  ⟨(package_lock_name_per_entry lockDupName none ⟨true⟩).1 (by decide),
   (package_lock_name_per_entry lockV2Nested none ⟨true⟩).2.2 rfl rfl⟩

/-- Claim C10: in v3+ mode the parser never emits a dependency for the root
package: every emitted record originates from a `packages` entry with a
non-empty path key, and its extracted name is non-empty. -/
theorem package_lock_never_emits_root :
    ∀ (lf : PackageLockJSON) (pj : Option PackageJSON) (opts : ParsePackageLockOptions),
      lf.packages.length > 0 →
      ∀ d ∈ ParsePackageLockWithOptions lf pj opts,
        ∃ e ∈ lf.packages,
          e.1 ≠ [] ∧ extractNameFromNodeModulesPath e.1 = d.name ∧ d.name ≠ [] := by
  intro lf pj opts h d hd
  unfold ParsePackageLockWithOptions at hd
  rw [if_pos h] at hd
  rw [List.mem_filterMap] at hd
  obtain ⟨e, he, hfe⟩ := hd
  refine ⟨e, he, ?_⟩
  simp only at hfe
  split_ifs at hfe with h1 h2 h3 h4
  have hd := Option.some.inj hfe
  subst hd
  exact ⟨h1, rfl, h2⟩

/-- Closed witness for `package_lock_never_emits_root`. -/
theorem package_lock_never_emits_root_witness :
    ∃ e ∈ lockExpress.packages,
      e.1 ≠ []
        ∧ extractNameFromNodeModulesPath e.1
          = (Dependency.mk (str "npm") (str "express") (str "4.18.2") (str "prod")
              false (str "package-lock.json")).name
        ∧ (Dependency.mk (str "npm") (str "express") (str "4.18.2") (str "prod")
            false (str "package-lock.json")).name ≠ [] :=
  package_lock_never_emits_root lockExpress (some pkgJSONExpress) ⟨false⟩ (by decide)
    _ (by decide)

/-! ## Claim C9: Gemfile group blocks -/

/-- `goStarts` holds on a list extending the prefix itself. -/
theorem goStarts_append_self (p r : Str) : goStarts (p ++ r) p = true := by
  induction p with
  | nil => cases r <;> rfl
  | cons c cs ih => simp [goStarts, ih]

/-- `takeWhile`/`dropWhile` split around the first failing element. -/
theorem takeWhile_append_stop (p : Char → Bool) (l : Str) (c : Char) (r : Str)
    (hl : l.all p = true) (hc : p c = false) :
    (l ++ c :: r).takeWhile p = l ∧ (l ++ c :: r).dropWhile p = c :: r := by
  induction l with
  | nil => simp [List.takeWhile_cons, List.dropWhile_cons, hc]
  | cons a as_ ih =>
    simp only [List.all_cons, Bool.and_eq_true] at hl
    have h1 := ih hl.2
    simp [List.takeWhile_cons, List.dropWhile_cons, hl.1, h1.1, h1.2]

/-- The group-scanner consumes a run of word characters in one block. -/
theorem grpLoop_inWord_word (w : Str) (hw : w.all isWordChar = true) (acc : Str)
    (gl : Option Str) (orig : Str) (s : Str) :
    grpLoop (.inWord acc) gl orig (w ++ s) = grpLoop (.inWord (w.reverse ++ acc)) gl orig s := by
  induction w generalizing acc with
  | nil => simp
  | cons a as_ ih =>
    simp only [List.all_cons, Bool.and_eq_true] at hw
    simp only [List.cons_append, grpLoop, hw.1, if_true, if_pos, List.append_eq]
    rw [ih hw.2]
    simp [List.reverse_cons, List.append_assoc]

/-- `goTrimSpace` is the identity on a list with non-space ends. -/
theorem goTrimSpace_sandwich (c : Char) (m : Str) (d : Char)
    (hc : goIsSpace c = false) (hd : goIsSpace d = false) :
    goTrimSpace (c :: (m ++ [d])) = c :: (m ++ [d]) := by
  unfold goTrimSpace
  have e1 : List.dropWhile goIsSpace (c :: (m ++ [d])) = c :: (m ++ [d]) := by
    simp [List.dropWhile_cons, hc]
  rw [e1]
  have h1 : (c :: (m ++ [d])).reverse = d :: (c :: m).reverse := by
    rw [← List.cons_append, List.reverse_append]
    rfl
  rw [h1]
  have e2 : List.dropWhile goIsSpace (d :: (c :: m).reverse) = d :: (c :: m).reverse := by
    simp [List.dropWhile_cons, hd]
  rw [e2, List.reverse_cons, List.reverse_reverse, List.cons_append]

/-- The group-header matcher on `group :g1, :c2g2, :c3g3 do` captures the
first group and the last group only, mirroring Go regexp semantics where a
repeated capturing group retains only its final iteration. -/
theorem matchGroupAt_header (g1 : Str) (c2 : Char) (g2s : Str) (c3 : Char) (g3s : Str)
    (h1 : g1 ≠ []) (h1w : g1.all isWordChar = true)
    (hc2 : isWordChar c2 = true) (hg2 : g2s.all isWordChar = true)
    (hc3 : isWordChar c3 = true) (hg3 : g3s.all isWordChar = true) :
    matchGroupAt
      ('g' :: 'r' :: 'o' :: 'u' :: 'p' :: ' ' :: ':' ::
        (g1 ++ (',' :: ' ' :: ':' :: c2 ::
          (g2s ++ (',' :: ' ' :: ':' :: c3 :: (g3s ++ [' ', 'd', 'o']))))))
      = some (g1, some (c3 :: g3s)) := by
  have e1 : str "group" = ['g', 'r', 'o', 'u', 'p'] := rfl
  have e2 : str ":" = [':'] := rfl
  have e3 : str "do" = ['d', 'o'] := rfl
  have hg1c := takeWhile_append_stop isWordChar g1 ','
    (' ' :: ':' :: c2 :: (g2s ++ (',' :: ' ' :: ':' :: c3 :: (g3s ++ [' ', 'd', 'o']))))
    h1w (by decide)
  have hg2c := grpLoop_inWord_word g2s hg2 [c2] none
    (',' :: ' ' :: ':' :: c2 :: (g2s ++ (',' :: ' ' :: ':' :: c3 :: (g3s ++ [' ', 'd', 'o']))))
    (',' :: ' ' :: ':' :: c3 :: (g3s ++ [' ', 'd', 'o']))
  have hg3c := grpLoop_inWord_word g3s hg3 [c3]
    (some (c2 :: g2s)) (',' :: ' ' :: ':' :: c3 :: (g3s ++ [' ', 'd', 'o'])) [' ', 'd', 'o']
  have s1 : goIsSpace ' ' = true := by decide
  have s2 : goIsSpace ':' = false := by decide
  have s3 : goIsSpace ',' = false := by decide
  have s4 : goIsSpace 'd' = false := by decide
  have w1 : isWordChar ',' = false := by decide
  have w2 : isWordChar ' ' = false := by decide
  have w3 : isWordChar ':' = false := by decide
  have q2 : ((' ' : Char) == ',') = false := by decide
  have q3 : (((':') : Char) == ',') = false := by decide
  have q4 : (('d' : Char) == ',') = false := by decide
  unfold matchGroupAt
  simp [e1, e2, e3, goStarts, List.drop, List.takeWhile_cons, hg1c.1, List.drop_left,
    grpLoop, hg2c, hg3c, hc2, hc3, s1, s2, s3, s4, w1, w2, w3, q2, q3, q4,
    List.append_assoc]
  exact h1

/-- Splitting on a separator absent from the tail yields one piece. -/
theorem goSplitGo_single_no (sep : Char) (cur s : Str)
    (h : s.all (fun c => !(c == sep)) = true) :
    goSplitGo [sep] 0 cur s = [cur.reverse ++ s] := by
  induction s generalizing cur with
  | nil => simp [goSplitGo]
  | cons c rest ih =>
    simp only [List.all_cons, Bool.and_eq_true, Bool.not_eq_true'] at h
    simp only [goSplitGo, goStarts, h.1, Bool.false_and, Bool.false_eq_true, if_false,
      List.append_eq]
    rw [ih (c :: cur) h.2]
    simp

/-- Splitting peels off the piece before the first separator. -/
theorem goSplitGo_single_break (sep : Char) (cur a b : Str)
    (h : a.all (fun c => !(c == sep)) = true) :
    goSplitGo [sep] 0 cur (a ++ sep :: b) = (cur.reverse ++ a) :: goSplitGo [sep] 0 [] b := by
  induction a generalizing cur with
  | nil =>
    simp only [List.nil_append, goSplitGo, goStarts, beq_self_eq_true, Bool.true_and,
      if_true, List.length_cons, List.length_nil]
    simp [goSplitGo]
  | cons c rest ih =>
    simp only [List.all_cons, Bool.and_eq_true, Bool.not_eq_true'] at h
    simp only [List.cons_append, goSplitGo, goStarts, h.1, Bool.false_and,
      Bool.false_eq_true, if_false, List.append_eq]
    rw [ih (c :: cur) h.2]
    simp

/-- A word character is never `==` to a non-word character. -/
theorem wordChar_beq_ne (c : Char) (h : isWordChar c = true) (d : Char)
    (hd : isWordChar d = false) : (c == d) = false := by
  cases hb : c == d
  · rfl
  · exfalso
    have hcd := eq_of_beq hb
    subst hcd
    rw [h] at hd
    cases hd

/-- A word string contains no occurrence of a non-word character. -/
theorem wordStr_all_beq_ne (g : Str) (hw : g.all isWordChar = true) (d : Char)
    (hd : isWordChar d = false) : (g.all (fun c => !(c == d))) = true := by
  rw [List.all_eq_true] at hw ⊢
  intro x hx
  simp [wordChar_beq_ne x (hw x hx) d hd]

/-- Claim C9, amended: a header `group :g1, :g2, :g3 do` (word-character
group names) enclosing `gem 'foo'` emits `foo` with version `latest` and the
scope computed from the FIRST and LAST group names only — the middle group
is dropped by the regex (a Go repeated capturing group keeps just its last
iteration), so a `test`/`development` group listed in the middle does not
make the scope `dev`. -/
theorem gemfile_group_first_last_scope (g1 : Str) (c2 : Char) (g2s : Str) (c3 : Char) (g3s : Str)
    (h1 : g1 ≠ []) (h1w : g1.all isWordChar = true)
    (hc2 : isWordChar c2 = true) (hg2 : g2s.all isWordChar = true)
    (hc3 : isWordChar c3 = true) (hg3 : g3s.all isWordChar = true) :
    ParseGemfile (str "group :" ++ g1 ++ str ", :" ++ (c2 :: g2s) ++ str ", :"
        ++ (c3 :: g3s) ++ str " do" ++ str "\ngem 'foo'\nend")
      = [⟨DependencyTypeRuby, str "foo", str "latest",
          mapGemfileGroupToScope [g1, c3 :: g3s], true, []⟩] := by
  have nl1 := wordStr_all_beq_ne g1 h1w '\n' (by decide)
  have nl2 := wordStr_all_beq_ne g2s hg2 '\n' (by decide)
  have nl3 := wordStr_all_beq_ne g3s hg3 '\n' (by decide)
  have nc2 := wordChar_beq_ne c2 hc2 '\n' (by decide)
  have nc3 := wordChar_beq_ne c3 hc3 '\n' (by decide)
  have hcontent : str "group :" ++ g1 ++ str ", :" ++ (c2 :: g2s) ++ str ", :"
        ++ (c3 :: g3s) ++ str " do" ++ str "\ngem 'foo'\nend"
      = ('g' :: 'r' :: 'o' :: 'u' :: 'p' :: ' ' :: ':' ::
          (g1 ++ (',' :: ' ' :: ':' :: c2 ::
            (g2s ++ (',' :: ' ' :: ':' :: c3 :: (g3s ++ [' ', 'd', 'o']))))))
        ++ '\n' :: (['g', 'e', 'm', ' ', '\'', 'f', 'o', 'o', '\''] ++ '\n' :: ['e', 'n', 'd']) := by
    simp [show str "group :" = ['g', 'r', 'o', 'u', 'p', ' ', ':'] from rfl,
      show str ", :" = [',', ' ', ':'] from rfl,
      show str " do" = [' ', 'd', 'o'] from rfl,
      show str "\ngem 'foo'\nend"
        = ['\n', 'g', 'e', 'm', ' ', '\'', 'f', 'o', 'o', '\'', '\n', 'e', 'n', 'd'] from rfl,
      List.append_assoc, List.cons_append]
  have hHDRall : (('g' :: 'r' :: 'o' :: 'u' :: 'p' :: ' ' :: ':' ::
        (g1 ++ (',' :: ' ' :: ':' :: c2 ::
          (g2s ++ (',' :: ' ' :: ':' :: c3 :: (g3s ++ [' ', 'd', 'o'])))))).all
        (fun c => !(c == '\n'))) = true := by
    simp [List.all_cons, List.all_append, nl1, nl2, nl3, nc2, nc3]
  have hsplit : goSplit
      ((('g' :: 'r' :: 'o' :: 'u' :: 'p' :: ' ' :: ':' ::
          (g1 ++ (',' :: ' ' :: ':' :: c2 ::
            (g2s ++ (',' :: ' ' :: ':' :: c3 :: (g3s ++ [' ', 'd', 'o']))))))
        ++ '\n' :: (['g', 'e', 'm', ' ', '\'', 'f', 'o', 'o', '\''] ++ '\n' :: ['e', 'n', 'd'])))
      (str "\n")
      = [('g' :: 'r' :: 'o' :: 'u' :: 'p' :: ' ' :: ':' ::
          (g1 ++ (',' :: ' ' :: ':' :: c2 ::
            (g2s ++ (',' :: ' ' :: ':' :: c3 :: (g3s ++ [' ', 'd', 'o'])))))),
         ['g', 'e', 'm', ' ', '\'', 'f', 'o', 'o', '\''], ['e', 'n', 'd']] := by
    rw [show str "\n" = ['\n'] from rfl]
    unfold goSplit
    rw [goSplitGo_single_break '\n' [] _ _ hHDRall]
    rw [goSplitGo_single_break '\n' [] _ _ (by decide)]
    rw [goSplitGo_single_no '\n' [] _ (by decide)]
    simp
  have htrim : goTrimSpace
      ('g' :: 'r' :: 'o' :: 'u' :: 'p' :: ' ' :: ':' ::
        (g1 ++ (',' :: ' ' :: ':' :: c2 ::
          (g2s ++ (',' :: ' ' :: ':' :: c3 :: (g3s ++ [' ', 'd', 'o']))))))
      = 'g' :: 'r' :: 'o' :: 'u' :: 'p' :: ' ' :: ':' ::
        (g1 ++ (',' :: ' ' :: ':' :: c2 ::
          (g2s ++ (',' :: ' ' :: ':' :: c3 :: (g3s ++ [' ', 'd', 'o']))))) := by
    have hshape : 'g' :: 'r' :: 'o' :: 'u' :: 'p' :: ' ' :: ':' ::
        (g1 ++ (',' :: ' ' :: ':' :: c2 ::
          (g2s ++ (',' :: ' ' :: ':' :: c3 :: (g3s ++ [' ', 'd', 'o'])))))
        = 'g' :: (('r' :: 'o' :: 'u' :: 'p' :: ' ' :: ':' ::
            (g1 ++ (',' :: ' ' :: ':' :: c2 ::
              (g2s ++ (',' :: ' ' :: ':' :: c3 :: (g3s ++ [' ', 'd'])))))) ++ ['o']) := by
      simp [List.append_assoc, List.cons_append]
    rw [hshape]
    exact goTrimSpace_sandwich 'g' _ 'o' (by decide) (by decide)
  have hfind : rubyGroupFind
      ('g' :: 'r' :: 'o' :: 'u' :: 'p' :: ' ' :: ':' ::
        (g1 ++ (',' :: ' ' :: ':' :: c2 ::
          (g2s ++ (',' :: ' ' :: ':' :: c3 :: (g3s ++ [' ', 'd', 'o']))))))
      = some (g1, some (c3 :: g3s)) := by
    unfold rubyGroupFind
    rw [matchGroupAt_header g1 c2 g2s c3 g3s h1 h1w hc2 hg2 hc3 hg3]
  have f1 : goTrimSpace ['g', 'e', 'm', ' ', '\'', 'f', 'o', 'o', '\'']
      = ['g', 'e', 'm', ' ', '\'', 'f', 'o', 'o', '\''] := by decide
  have f2 : rubyGroupFind ['g', 'e', 'm', ' ', '\'', 'f', 'o', 'o', '\''] = none := by decide
  have f3 : rubyGemFindWithVer ['g', 'e', 'm', ' ', '\'', 'f', 'o', 'o', '\''] = none := by
    decide
  have f4 : rubyGemFindNoVer ['g', 'e', 'm', ' ', '\'', 'f', 'o', 'o', '\'']
      = some (str "foo") := by decide
  have f5 : goTrimSpace ['e', 'n', 'd'] = str "end" := by decide
  have f6 : rubyGroupFind (str "end") = none := by decide
  have hgt : 0 + 1 > 0 := by decide
  have c1 : (['g', 'e', 'm', ' ', '\'', 'f', 'o', 'o', '\''] : Str) ≠ str "end" := by decide
  have c2cnd : ¬((['g', 'e', 'm', ' ', '\'', 'f', 'o', 'o', '\''] : Str) = []
      ∨ goStarts ['g', 'e', 'm', ' ', '\'', 'f', 'o', 'o', '\''] (str "#") = true) := by decide
  have c3cnd : (str "foo" : Str) ≠ [] := by decide
  unfold ParseGemfile
  rw [hcontent, hsplit]
  simp only [gemfileGo, htrim, hfind, f1, f2, f3, f4, f5, f6, hgt, c1, c2cnd, c3cnd,
    if_true, if_false, ite_true, ite_false, and_true, true_and, false_and,
    eq_self_iff_true, List.singleton_append, List.cons_append,
    List.nil_append, List.append_nil, ne_eq, not_false_eq_true]

/-- Claim C9, counterexample: in `group :a, :test, :b do ... end` the gem is
emitted with scope `prod` even though the active groups as written include
`test` — the middle group name is lost; had all three names been kept, the
scope function would have returned `dev`. -/
theorem gemfile_middle_group_dropped :
    (ParseGemfile gemfileThreeGroups).map (fun d => (d.name, d.version, d.scope))
      = [(str "foo", str "latest", ScopeProd)]
    ∧ mapGemfileGroupToScope [str "a", str "test", str "b"] = ScopeDev :=
  ⟨by decide, by decide⟩

/-- Closed witness for `gemfile_group_first_last_scope`. -/
theorem gemfile_group_first_last_scope_witness :
    ParseGemfile (str "group :" ++ ['a'] ++ str ", :" ++ ('t' :: ['e', 's', 't'])
        ++ str ", :" ++ ('b' :: []) ++ str " do" ++ str "\ngem 'foo'\nend")
      = [⟨DependencyTypeRuby, str "foo", str "latest",
          mapGemfileGroupToScope [['a'], 'b' :: []], true, []⟩] :=
  gemfile_group_first_last_scope ['a'] 't' ['e', 's', 't'] 'b' []
    (by decide) (by decide) (by decide) (by decide) (by decide) (by decide)

end TSA
